import Mathlib

/-!
# Verification of the hybridtfidf package

Shallow embedding of the Python sources:

* `hybridtfidf/hybridtfidf.py` (the packaged `HybridTfidf` class and the
  `select_salient_posts` / `cosine_sim` utilities, duplicated verbatim in
  `hybridtfidf/utils.py`),
* `hybridtfidf.py` (the legacy single-file variant of the class).

Modelling conventions:

* Python floats are embedded as real numbers (`ℝ`); integer data as `ℕ`;
  normalization thresholds as `ℚ` (Python permits both ints and floats there).
* Python dicts (3.7+ preserve insertion order) are embedded as ordered
  association lists; the try/except increment in `_wordcounts` is the
  update-or-append operation `bump`.
* Python `str.split(' ')` (single explicit separator, keeping empty pieces)
  is embedded structurally over the character list of the string
  (`String.splitOn` is extensionally the same but does not reduce in the
  kernel).  Python `set` iteration order in `_wordcounts` is arbitrary; we
  use `List.dedup`, which only affects the (unused) ordering of the
  presence dict, not any value stored in it.
* Fallible operations return `Except PyError`; the constructors
  `notFitError`, `unknownTokenError` and `emptyCorpusError` are modelled
  from the spec's error taxonomy (section 7) so that claims naming them can
  be stated: the code itself never produces them, it raises the plain
  Python exceptions `IndexError` / `KeyError` / `AttributeError`.
* In `select_salient_posts` the Python signature spells the fourth
  parameter `similarity_threshold` while the loop body reads
  `sim_threshold`, a name bound nowhere, so every comparison the inner loop
  reaches raises `NameError` (in the `utils.py` copy `cosine_sim` itself
  already fails there, since `dot` and `norm` are never imported).  The
  embedding reproduces this: a validly indexed candidate comparison yields
  `nameError`, while an out-of-range subscript still surfaces first as
  `indexError` because `sorted_keyed_vectors[j][1]` and
  `sorted_keyed_vectors[i][1]` are evaluated as call arguments before the
  comparison.  Consequently the selector can never return a selection.
-/

/-- Failure modes.  `indexError`, `keyError`, `attributeError` and
`nameError` (an unbound name such as `sim_threshold`) are the Python
exceptions actually reachable in the sources; the last three constructors are
modelled from the spec: its section 7 error taxonomy names `NotFitError`,
`UnknownTokenError` and `EmptyCorpusError`, none of which exist in the code. -/
inductive PyError where
  | indexError : PyError
  | keyError : String → PyError
  | attributeError : PyError
  | nameError : PyError
  | notFitError : PyError
  | unknownTokenError : PyError
  | emptyCorpusError : PyError
deriving DecidableEq

/-- Python `s.split(' ')` on the character list: splits at every single space
character, keeping empty pieces (so the empty string yields `[[]]`). -/
def splitTokens : List Char → List (List Char)
  | [] => [[]]
  | c :: cs =>
    if c = ' ' then [] :: splitTokens cs
    else
      match splitTokens cs with
      | [] => [[c]]
      | t :: ts => (c :: t) :: ts

/-- Embeds `post.split(' ')` of the Python sources. -/
def tokens (s : String) : List String :=
  (splitTokens s.data).map (fun cs => String.mk cs)

/-- One `try: d[w] += 1 / except: d[w] = 1` step of `_wordcounts` on an
insertion-ordered association list. -/
def bump (m : List (String × Nat)) (w : String) : List (String × Nat) :=
  if (m.lookup w).isSome then
    m.map (fun p => if p.1 = w then (p.1, p.2 + 1) else p)
  else m ++ [(w, 1)]

/-- Embeds `self._corpus_word_freqs` after `fit`: occurrence counts accumulated over
every token of every document, in first-seen key order. -/
def corpusWordFreqs (docs : List String) : List (String × Nat) :=
  ((docs.map tokens).flatten).foldl bump []

/-- Embeds `self._num_posts_containing_words` after `fit`: for each document the
distinct tokens (Python iterates a `set`; only the stored counts matter). -/
def numPostsContainingWords (docs : List String) : List (String × Nat) :=
  docs.foldl (fun m d => (tokens d).dedup.foldl bump m) []

/-- Embeds `self._corpus_all_words = self._corpus_word_freqs.keys()`. -/
def vocab (docs : List String) : List String :=
  (corpusWordFreqs docs).map Prod.fst

/-- Value lookup in `_corpus_word_freqs` (all uses in the sources are on
vocabulary words, where the key is present). -/
def wordFreq (docs : List String) (w : String) : Nat :=
  ((corpusWordFreqs docs).lookup w).getD 0

/-- Value lookup in `_num_posts_containing_words` (all uses in the sources are
on vocabulary words, where the key is present). -/
def numPostsContaining (docs : List String) (w : String) : Nat :=
  ((numPostsContainingWords docs).lookup w).getD 0

/-- Embeds `self._corpus_total_word_count = sum(self._corpus_word_freqs.values())`. -/
def corpusTotalWordCount (docs : List String) : Nat :=
  ((corpusWordFreqs docs).map Prod.snd).sum

/-- Embeds `self._post_count = len(raw_documents)`. -/
def postCount (docs : List String) : Nat :=
  docs.length

/-- Embeds `_tf`: `float(freqs[word]) / float(total)`. -/
noncomputable def tf (docs : List String) (w : String) : ℝ :=
  (wordFreq docs w : ℝ) / (corpusTotalWordCount docs : ℝ)

/-- Embeds `_idf`: `float(post_count) / float(num_posts_containing_words[word])`. -/
noncomputable def idf (docs : List String) (w : String) : ℝ :=
  (postCount docs : ℝ) / (numPostsContaining docs w : ℝ)

/-- Embeds `_tfidf_word_weight`: `tf(word) * math.log(idf(word), 2)`. -/
noncomputable def tfidfWordWeight (docs : List String) (w : String) : ℝ :=
  tf docs w * Real.logb 2 (idf docs w)

/-- Embeds `_all_tfidfs`: the memoized dict from vocabulary word to its weight, in
vocabulary order (`self.corpus_tfidfs`). -/
noncomputable def allTfidfs (docs : List String) : List (String × ℝ) :=
  (vocab docs).map (fun w => (w, tfidfWordWeight docs w))

/-- Embeds `_nf(post, threshold) = max(threshold, len(post))` for a token list. -/
def nf (post : List String) (threshold : ℚ) : ℚ :=
  max threshold (post.length : ℚ)

/-- Packaged `HybridTfidf.post_vector`: one coordinate per memoized
vocabulary entry, `tfidf / nf` multiplied by the 0/1 presence indicator
`word in splitpost`.  The normalization factor uses the token count of the
split post. -/
noncomputable def post_vector (docs : List String) (post : String) (threshold : ℚ) : List ℝ :=
  let splitpost := tokens post
  let normalisationFactor : ℝ := ((nf splitpost threshold : ℚ) : ℝ)
  (allTfidfs docs).map
    (fun p => (p.2 / normalisationFactor) * (if p.1 ∈ splitpost then 1 else 0))

/-- Legacy (single-file) `HybridTfidf.post_vector`: identical except that its
`self._nf(post, threshold)` is applied to the raw string, so the length used
is the character count `len(post)` of the unsplit document. -/
noncomputable def legacy_post_vector (docs : List String) (post : String) (threshold : ℚ) :
    List ℝ :=
  let normalisationFactor : ℝ := ((max threshold (post.length : ℚ) : ℚ) : ℝ)
  let splitpost := tokens post
  (allTfidfs docs).map
    (fun p => (p.2 / normalisationFactor) * (if p.1 ∈ splitpost then 1 else 0))

/-- The loop of `post_weight`: look every token up in the memoized dict, in
order; a missing key raises `KeyError` at the first offending token. -/
def lookupWeights (tfidfs : List (String × ℝ)) : List String → Except PyError (List ℝ)
  | [] => .ok []
  | w :: ws =>
    match tfidfs.lookup w with
    | none => .error (.keyError w)
    | some x =>
      match lookupWeights tfidfs ws with
      | .error e => .error e
      | .ok xs => .ok (x :: xs)

/-- Embeds `HybridTfidf.post_weight`: sum of the looked-up token weights (with
repetition) divided by the normalization factor of the split post. -/
noncomputable def post_weight (docs : List String) (post : String) (threshold : ℚ) :
    Except PyError ℝ :=
  match lookupWeights (allTfidfs docs) (tokens post) with
  | .error e => .error e
  | .ok ws => .ok (ws.sum / ((nf (tokens post) threshold : ℚ) : ℝ))

/-- Object state of the packaged class: `__init__` stores the threshold and
`_isfit = False`; the fitted attributes (`_raw_documents` and everything
derived from it) exist only after `fit`, which `raw = some docs` models. -/
structure HState where
  threshold : ℚ
  isfit : Bool
  raw : Option (List String)

/-- Embeds the constructor `HybridTfidf(threshold)`. -/
def initHybridTfidf (threshold : ℚ) : HState :=
  ⟨threshold, false, none⟩

/-- Embeds `HybridTfidf.fit`: unconditionally recomputes all statistics and sets
`_isfit = True`; there is no emptiness check anywhere in the source. -/
def fitOp (s : HState) (docs : List String) : Except PyError HState :=
  .ok ⟨s.threshold, true, some docs⟩

/-- Embeds `post_vector` as a method: before `fit`, reading `self.corpus_tfidfs`
raises `AttributeError`. -/
noncomputable def postVectorOp (s : HState) (post : String) (threshold : ℚ) :
    Except PyError (List ℝ) :=
  match s.raw with
  | none => .error .attributeError
  | some docs => .ok (post_vector docs post threshold)

/-- Embeds `post_weight` as a method: before `fit`, reading `self.corpus_tfidfs`
raises `AttributeError`. -/
noncomputable def postWeightOp (s : HState) (post : String) (threshold : ℚ) :
    Except PyError ℝ :=
  match s.raw with
  | none => .error .attributeError
  | some docs => post_weight docs post threshold

/-- Embeds `get_feature_names`: before `fit`, reading `self._corpus_all_words` raises
`AttributeError` (the source itself carries a TODO about the missing check). -/
def getFeatureNamesOp (s : HState) : Except PyError (List String) :=
  match s.raw with
  | none => .error .attributeError
  | some docs => .ok (vocab docs)

/-- Embeds `_tfidf_word_weight` as a method: before `fit`, reading
`self._corpus_word_freqs` raises `AttributeError`; on a fitted model a word
outside the vocabulary raises `KeyError` in `_tf`. -/
noncomputable def termWeightOp (s : HState) (w : String) : Except PyError ℝ :=
  match s.raw with
  | none => .error .attributeError
  | some docs =>
    if w ∈ vocab docs then .ok (tfidfWordWeight docs w) else .error (.keyError w)

/-- Embeds `transform`: maps `post_vector` with the stored threshold over the batch;
the unfit `AttributeError` surfaces at the first document processed. -/
noncomputable def transformOp (s : HState) (batch : List String) :
    Except PyError (List (List ℝ)) :=
  batch.mapM (fun post => postVectorOp s post s.threshold)

/-- Embeds `numpy.dot` on two equal-length list vectors. -/
noncomputable def dotList (vec1 vec2 : List ℝ) : ℝ :=
  (List.zipWith (fun x y => x * y) vec1 vec2).sum

/-- Embeds `numpy.linalg.norm`: the Euclidean norm. -/
noncomputable def normList (v : List ℝ) : ℝ :=
  Real.sqrt ((v.map (fun x => x * x)).sum)

/-- Embeds `cosine_sim(vec1, vec2) = dot(vec1, vec2) / (norm(vec1) * norm(vec2))`. -/
noncomputable def cosine_sim (vec1 vec2 : List ℝ) : ℝ :=
  dotList vec1 vec2 / (normList vec1 * normList vec2)

/-- Embeds the inner `for j in significant_indices` loop of
`select_salient_posts`.  With an empty `significant_indices` the body never
runs and the `is_similar` flag stays `False` (unreachable from the entry
point, which seeds the list with rank position 0).  Otherwise the first
iteration evaluates `sorted_keyed_vectors[j][1]` and
`sorted_keyed_vectors[i][1]` as call arguments (an out-of-range subscript
raises `IndexError` here) and then fails with `NameError`: in
`hybridtfidf.py` the comparison `sim >= sim_threshold` reads the unbound
name `sim_threshold` (the parameter is spelled `similarity_threshold`), and
in the `utils.py` copy already the `cosine_sim` call fails because `dot` and
`norm` are never imported. -/
def simAny (sorted : List (Nat × List ℝ)) (vi : List ℝ) :
    List Nat → Except PyError Bool
  | [] => .ok false
  | j :: _ =>
    match sorted[j]? with
    | none => .error .indexError
    | some _ => .error .nameError

/-- The `while loop_condition` loop of `select_salient_posts`.  Each iteration
first evaluates `sorted_keyed_vectors[i]` (raising `IndexError` when `i` is
past the end), appends the candidate when it is not similar to any selected
entry, then tests `len(significant_indices) >= k or i >= veclength` and
increments `i`. -/
noncomputable def selectLoop (sorted : List (Nat × List ℝ)) (simThreshold : ℝ)
    (k veclength i : Nat) (sig uns : List Nat) : Except PyError (List Nat) :=
  match sorted[i]? with
  | none => .error .indexError
  | some zi =>
    match simAny sorted zi.2 sig with
    | .error e => .error e
    | .ok isSimilar =>
      let sig2 := if isSimilar then sig else sig ++ [i]
      let uns2 := if isSimilar then uns else uns ++ [zi.1]
      if h : k ≤ sig2.length ∨ veclength ≤ i then .ok uns2
      else selectLoop sorted simThreshold k veclength (i + 1) sig2 uns2
termination_by veclength - i
decreasing_by omega

/-- Embeds `sorted_keyed_vectors`: Python pairs each weight with `(index, vector)`
via `zip(post_weights, enumerate(post_vectors))`, sorts by weight descending
(`sorted(..., key=lambda i: i[0], reverse=True)` is a stable sort, which
insertion sort with this total relation reproduces), and keeps `(index,
vector)` (`[z for _, z in ...]`). -/
noncomputable def sortedKeyedVectors (post_vectors : List (List ℝ)) (post_weights : List ℝ) :
    List (Nat × List ℝ) :=
  (List.insertionSort (fun a b => b.1 ≤ a.1) (post_weights.zip post_vectors.enum)).map
    Prod.snd

/-- Embeds `select_salient_posts(post_vectors, post_weights, k, sim_threshold)`:
seeds the selection with the entry at rank position 0 (its access raises
`IndexError` on an empty input) and runs the `while` loop from `i = 1`. -/
noncomputable def select_salient_posts (post_vectors : List (List ℝ)) (post_weights : List ℝ)
    (k : Nat) (simThreshold : ℝ) : Except PyError (List Nat) :=
  match (sortedKeyedVectors post_vectors post_weights)[0]? with
  | none => .error .indexError
  | some z0 =>
    selectLoop (sortedKeyedVectors post_vectors post_weights) simThreshold k
      post_vectors.length 1 [0] [z0.1]

/-- First-seen insertion order of the distinct elements of a token stream,
written directly after the spec's words (section 3, Vocabulary: "insertion
order determines the fixed dimension ordering").  Compared against the
dict-derived `vocab` in the C4 theorem. -/
def firstSeenOrder (ws : List String) : List String :=
  ws.foldl (fun acc w => if w ∈ acc then acc else acc ++ [w]) []

/-! ## Association-list lemmas for the accumulated dictionaries -/

theorem lookup_cons_self {β : Type} (k : String) (v : β) (l : List (String × β)) :
    ((k, v) :: l).lookup k = some v := by
  simp [List.lookup]

theorem lookup_cons_ne {β : Type} {a k : String} (v : β) (l : List (String × β))
    (h : a ≠ k) : ((k, v) :: l).lookup a = l.lookup a := by
  simp [List.lookup, beq_eq_false_iff_ne.mpr h]

theorem lookup_eq_none_iff {β : Type} (m : List (String × β)) (w : String) :
    m.lookup w = none ↔ w ∉ m.map Prod.fst := by
  induction m with
  | nil => simp [List.lookup]
  | cons p m ih =>
    obtain ⟨k, v⟩ := p
    by_cases h : w = k
    · subst h
      simp [lookup_cons_self]
    · rw [lookup_cons_ne _ _ h]
      simpa [h] using ih

theorem lookup_some_mem {β : Type} {m : List (String × β)} {w : String} {c : β}
    (h : m.lookup w = some c) : (w, c) ∈ m := by
  induction m with
  | nil => simp [List.lookup] at h
  | cons p m ih =>
    obtain ⟨k, v⟩ := p
    by_cases hw : w = k
    · subst hw
      rw [lookup_cons_self] at h
      simp only [Option.some.injEq] at h
      subst h
      exact List.mem_cons_self _ _
    · rw [lookup_cons_ne _ _ hw] at h
      exact List.mem_cons_of_mem _ (ih h)

theorem lookup_append {β : Type} (l1 l2 : List (String × β)) (w : String) :
    (l1 ++ l2).lookup w = (l1.lookup w).or (l2.lookup w) := by
  induction l1 with
  | nil => simp [List.lookup]
  | cons p l1 ih =>
    obtain ⟨k, v⟩ := p
    by_cases h : w = k
    · subst h
      simp [List.cons_append, lookup_cons_self]
    · rw [List.cons_append, lookup_cons_ne _ _ h, lookup_cons_ne _ _ h, ih]

theorem lookup_map_incr (m : List (String × Nat)) (v w : String) :
    (m.map (fun p => if p.1 = v then (p.1, p.2 + 1) else p)).lookup w =
      if v = w then (m.lookup w).map (· + 1) else m.lookup w := by
  induction m with
  | nil => simp [List.lookup]
  | cons p m ih =>
    obtain ⟨k, c⟩ := p
    by_cases hw : w = k
    · subst hw
      by_cases hv : w = v
      · subst hv
        have hh : (fun p : String × Nat => if p.1 = w then (p.1, p.2 + 1) else p) (w, c)
            = (w, c + 1) := by simp
        simp only [List.map_cons, hh]
        rw [if_pos trivial, lookup_cons_self, if_pos trivial]
        simp
      · have hkv : ¬ (w, c).1 = v := by simpa using fun hc => hv hc
        simp only [List.map_cons, if_neg hkv]
        rw [lookup_cons_self, lookup_cons_self, if_neg (fun hc => hv hc.symm)]
    · by_cases hv : k = v
      · simp only [List.map_cons, if_pos (show ((k, c).1 = v) from hv)]
        rw [lookup_cons_ne _ _ hw, lookup_cons_ne _ _ hw, ih]
      · simp only [List.map_cons, if_neg (show ¬ ((k, c).1 = v) from hv)]
        rw [lookup_cons_ne _ _ hw, lookup_cons_ne _ _ hw, ih]

theorem lookup_bump (m : List (String × Nat)) (v w : String) :
    (bump m v).lookup w =
      if v = w then some (((m.lookup w).getD 0) + 1) else m.lookup w := by
  unfold bump
  by_cases hs : (m.lookup v).isSome
  · rw [if_pos hs, lookup_map_incr]
    by_cases hvw : v = w
    · subst hvw
      obtain ⟨c, hc⟩ := Option.isSome_iff_exists.mp hs
      simp [hc]
    · simp [hvw]
  · rw [if_neg hs, lookup_append]
    have hnone : m.lookup v = none := by
      cases h : m.lookup v with
      | none => rfl
      | some c => exact absurd (by simp [h]) hs
    by_cases hvw : v = w
    · subst hvw
      simp [hnone, lookup_cons_self]
    · rw [if_neg hvw, lookup_cons_ne _ _ (fun hc => hvw hc.symm)]
      simp [List.lookup]

theorem keys_bump (m : List (String × Nat)) (v : String) :
    (bump m v).map Prod.fst =
      if v ∈ m.map Prod.fst then m.map Prod.fst else m.map Prod.fst ++ [v] := by
  unfold bump
  by_cases hs : (m.lookup v).isSome
  · have hv : v ∈ m.map Prod.fst := by
      by_contra hc
      rw [← lookup_eq_none_iff] at hc
      simp [hc] at hs
    rw [if_pos hs, if_pos hv, List.map_map]
    refine List.map_congr_left ?_
    intro p _
    by_cases h : p.1 = v <;> simp [h]
  · have hv : v ∉ m.map Prod.fst := by
      rw [← lookup_eq_none_iff]
      cases h : m.lookup v with
      | none => rfl
      | some c => exact absurd (by simp [h]) hs
    rw [if_neg hs, if_neg hv]
    simp

theorem keys_foldl_bump (ws : List String) (m : List (String × Nat)) :
    (ws.foldl bump m).map Prod.fst =
      ws.foldl (fun acc w => if w ∈ acc then acc else acc ++ [w]) (m.map Prod.fst) := by
  induction ws generalizing m with
  | nil => rfl
  | cons w ws ih =>
    simp only [List.foldl_cons]
    rw [ih, keys_bump]

theorem mem_keys_foldl_bump (ws : List String) (m : List (String × Nat)) (w : String) :
    w ∈ (ws.foldl bump m).map Prod.fst ↔ w ∈ m.map Prod.fst ∨ w ∈ ws := by
  induction ws generalizing m with
  | nil => simp
  | cons v ws ih =>
    simp only [List.foldl_cons]
    rw [ih, keys_bump]
    by_cases hv : v ∈ m.map Prod.fst
    · rw [if_pos hv]
      simp only [List.mem_cons]
      constructor
      · rintro (h | h)
        · exact Or.inl h
        · exact Or.inr (Or.inr h)
      · rintro (h | h | h)
        · exact Or.inl h
        · exact Or.inl (h ▸ hv)
        · exact Or.inr h
    · rw [if_neg hv]
      simp only [List.mem_append, List.mem_singleton, List.mem_cons]
      tauto

theorem nodup_keys_foldl_bump (ws : List String) (m : List (String × Nat))
    (hm : (m.map Prod.fst).Nodup) : ((ws.foldl bump m).map Prod.fst).Nodup := by
  induction ws generalizing m with
  | nil => exact hm
  | cons v ws ih =>
    simp only [List.foldl_cons]
    refine ih _ ?_
    rw [keys_bump]
    by_cases hv : v ∈ m.map Prod.fst
    · rwa [if_pos hv]
    · rw [if_neg hv]
      refine List.Nodup.append hm (List.nodup_singleton v) ?_
      intro a ha hb
      rw [List.mem_singleton] at hb
      exact hv (hb ▸ ha)

theorem lookup_foldl_bump (ws : List String) (m : List (String × Nat)) (w : String) :
    (ws.foldl bump m).lookup w =
      match m.lookup w with
      | some c => some (c + ws.count w)
      | none => if w ∈ ws then some (ws.count w) else none := by
  induction ws generalizing m with
  | nil => cases h : m.lookup w <;> simp [h]
  | cons v ws ih =>
    simp only [List.foldl_cons]
    rw [ih, lookup_bump]
    by_cases hvw : v = w
    · subst hvw
      cases h : m.lookup v with
      | none =>
        simp [h]
        omega
      | some c =>
        simp [h]
        omega
    · have hne : w ≠ v := fun hc => hvw hc.symm
      rw [if_neg hvw]
      cases h : m.lookup w with
      | none =>
        simp [h, List.count_cons, beq_eq_false_iff_ne.mpr hne, List.mem_cons, hne, hvw]
      | some c =>
        simp [h, List.count_cons, beq_eq_false_iff_ne.mpr hne, hvw]

/-! ## Characterization of the fitted statistics -/

theorem vocab_nodup (docs : List String) : (vocab docs).Nodup :=
  nodup_keys_foldl_bump _ [] (by simp)

theorem mem_vocab_iff (docs : List String) (w : String) :
    w ∈ vocab docs ↔ w ∈ (docs.map tokens).flatten := by
  unfold vocab corpusWordFreqs
  rw [mem_keys_foldl_bump]
  simp

theorem lookup_corpusWordFreqs (docs : List String) (w : String) :
    (corpusWordFreqs docs).lookup w =
      if w ∈ (docs.map tokens).flatten
      then some (((docs.map tokens).flatten).count w) else none := by
  unfold corpusWordFreqs
  rw [lookup_foldl_bump]
  simp [List.lookup]

theorem wordFreq_eq_count (docs : List String) (w : String) :
    wordFreq docs w = ((docs.map tokens).flatten).count w := by
  unfold wordFreq
  rw [lookup_corpusWordFreqs]
  by_cases h : w ∈ (docs.map tokens).flatten
  · simp [h]
  · simp [h, List.count_eq_zero.mpr h]

theorem count_dedup (l : List String) (w : String) :
    l.dedup.count w = if w ∈ l then 1 else 0 := by
  by_cases h : w ∈ l
  · rw [if_pos h]
    have h1 : 0 < l.dedup.count w := List.count_pos_iff.mpr (List.mem_dedup.mpr h)
    have h2 : l.dedup.count w ≤ 1 := List.nodup_iff_count_le_one.mp (List.nodup_dedup l) w
    omega
  · rw [if_neg h]
    exact List.count_eq_zero.mpr (fun hc => h (List.mem_dedup.mp hc))

theorem lookup_foldl_docs (docs : List String) (m : List (String × Nat)) (w : String) :
    (docs.foldl (fun m d => (tokens d).dedup.foldl bump m) m).lookup w =
      match m.lookup w with
      | some c => some (c + docs.countP (fun d => decide (w ∈ tokens d)))
      | none =>
        if ∃ d ∈ docs, w ∈ tokens d
        then some (docs.countP (fun d => decide (w ∈ tokens d))) else none := by
  induction docs generalizing m with
  | nil => cases h : m.lookup w <;> simp [h]
  | cons d docs ih =>
    simp only [List.foldl_cons]
    rw [ih, lookup_foldl_bump, count_dedup]
    by_cases hd : w ∈ tokens d
    · cases h : m.lookup w with
      | some c =>
        have hmem : w ∈ (tokens d).dedup := List.mem_dedup.mpr hd
        simp only [h, hmem, if_pos hd]
        simp [List.countP_cons, hd]
        omega
      | none =>
        have hmem : w ∈ (tokens d).dedup := List.mem_dedup.mpr hd
        simp only [h, hmem, if_pos hd, if_pos (show ∃ x ∈ d :: docs, w ∈ tokens x from
          ⟨d, List.mem_cons_self _ _, hd⟩), if_true]
        simp [List.countP_cons, hd]
        omega
    · have hmem : w ∉ (tokens d).dedup := fun hc => hd (List.mem_dedup.mp hc)
      cases h : m.lookup w with
      | some c =>
        simp only [h, hmem, if_neg hd, if_false]
        simp [List.countP_cons, hd]
      | none =>
        simp only [h, hmem, if_neg hd, if_false]
        have hiff : (∃ x ∈ d :: docs, w ∈ tokens x) ↔ (∃ x ∈ docs, w ∈ tokens x) := by
          constructor
          · rintro ⟨x, hx, hwx⟩
            rcases List.mem_cons.mp hx with h1 | h1
            · exact absurd (h1 ▸ hwx) hd
            · exact ⟨x, h1, hwx⟩
          · rintro ⟨x, hx, hwx⟩
            exact ⟨x, List.mem_cons_of_mem _ hx, hwx⟩
        by_cases hx : ∃ x ∈ docs, w ∈ tokens x
        · simp only [if_pos hx, if_pos (hiff.mpr hx)]
          simp [List.countP_cons, hd]
        · simp only [if_neg hx, if_neg (fun hc => hx (hiff.mp hc))]

theorem numPostsContaining_eq_countP (docs : List String) (w : String) :
    numPostsContaining docs w = docs.countP (fun d => decide (w ∈ tokens d)) := by
  unfold numPostsContaining numPostsContainingWords
  rw [lookup_foldl_docs]
  simp only [List.lookup]
  by_cases hx : ∃ d ∈ docs, w ∈ tokens d
  · simp [hx]
  · simp only [if_neg hx, Option.getD_none]
    have : ∀ d ∈ docs, ¬ (decide (w ∈ tokens d) = true) := by
      intro d hd hc
      exact hx ⟨d, hd, of_decide_eq_true hc⟩
    exact (List.countP_eq_zero.mpr this).symm

theorem keys_allTfidfs (docs : List String) :
    (allTfidfs docs).map Prod.fst = vocab docs := by
  unfold allTfidfs
  rw [List.map_map]
  rw [show (Prod.fst ∘ fun w => (w, tfidfWordWeight docs w)) = id from rfl]
  exact List.map_id _

theorem lookup_map_pair {β : Type} (f : String → β) (l : List String) (w : String)
    (hw : w ∈ l) : (l.map (fun x => (x, f x))).lookup w = some (f w) := by
  induction l with
  | nil => simp at hw
  | cons a l ih =>
    by_cases h : w = a
    · subst h
      simp only [List.map_cons]
      exact lookup_cons_self _ _ _
    · simp only [List.map_cons]
      rw [lookup_cons_ne _ _ h]
      exact ih (List.mem_of_ne_of_mem h hw)

theorem lookup_allTfidfs (docs : List String) (w : String) (hw : w ∈ vocab docs) :
    (allTfidfs docs).lookup w = some (tfidfWordWeight docs w) :=
  lookup_map_pair _ _ _ hw

theorem lookup_allTfidfs_none (docs : List String) (w : String) (hw : w ∉ vocab docs) :
    (allTfidfs docs).lookup w = none := by
  rw [lookup_eq_none_iff, keys_allTfidfs]
  exact hw

theorem wordFreq_pos (docs : List String) (w : String) (hw : w ∈ vocab docs) :
    0 < wordFreq docs w := by
  rw [wordFreq_eq_count]
  exact List.count_pos_iff.mpr ((mem_vocab_iff docs w).mp hw)

theorem wordFreq_le_total (docs : List String) (w : String) :
    wordFreq docs w ≤ corpusTotalWordCount docs := by
  unfold wordFreq corpusTotalWordCount
  cases h : (corpusWordFreqs docs).lookup w with
  | none => simp
  | some c =>
    have hmem : c ∈ (corpusWordFreqs docs).map Prod.snd :=
      List.mem_map.mpr ⟨(w, c), lookup_some_mem h, rfl⟩
    simpa [h] using List.single_le_sum (fun x _ => Nat.zero_le x) c hmem

theorem total_pos (docs : List String) (w : String) (hw : w ∈ vocab docs) :
    0 < corpusTotalWordCount docs :=
  lt_of_lt_of_le (wordFreq_pos docs w hw) (wordFreq_le_total docs w)

theorem numPostsContaining_pos (docs : List String) (w : String) (hw : w ∈ vocab docs) :
    0 < numPostsContaining docs w := by
  rw [numPostsContaining_eq_countP]
  refine List.countP_pos_iff.mpr ?_
  have := (mem_vocab_iff docs w).mp hw
  rw [List.mem_flatten] at this
  obtain ⟨l, hl, hwl⟩ := this
  obtain ⟨d, hd, rfl⟩ := List.mem_map.mp hl
  exact ⟨d, hd, by simpa using hwl⟩

theorem numPostsContaining_le_postCount (docs : List String) (w : String) :
    numPostsContaining docs w ≤ postCount docs := by
  rw [numPostsContaining_eq_countP]
  exact List.countP_le_length _

theorem vocab_eq_firstSeenOrder (docs : List String) :
    vocab docs = firstSeenOrder ((docs.map tokens).flatten) := by
  unfold vocab corpusWordFreqs firstSeenOrder
  rw [keys_foldl_bump]
  rfl

theorem post_vector_eq_map_vocab (docs : List String) (post : String) (threshold : ℚ) :
    post_vector docs post threshold =
      (vocab docs).map (fun w =>
        (tfidfWordWeight docs w / ((nf (tokens post) threshold : ℚ) : ℝ)) *
          (if w ∈ tokens post then 1 else 0)) := by
  unfold post_vector allTfidfs
  rw [List.map_map]
  rfl

/-- C4: for every fitted corpus, document and threshold, `post_vector` has one
coordinate per vocabulary entry (length = vocabulary size); the axis order is
the vocabulary in first-seen insertion order; and coordinate `i` is
`term_weight / max(threshold, token count)` when vocabulary word `i` occurs in
the document (presence, not count) and `0` otherwise — in particular document
tokens outside the vocabulary contribute nothing and cause no failure
(`post_vector` is total). -/
theorem post_vector_spec (docs : List String) (post : String) (threshold : ℚ) :
    (post_vector docs post threshold).length = (vocab docs).length
    ∧ vocab docs = firstSeenOrder ((docs.map tokens).flatten)
    ∧ ∀ i, i < (vocab docs).length →
        (post_vector docs post threshold).getD i 0 =
          if (vocab docs).getD i "" ∈ tokens post
          then tfidfWordWeight docs ((vocab docs).getD i "")
            / ((nf (tokens post) threshold : ℚ) : ℝ)
          else 0 := by
  refine ⟨?_, vocab_eq_firstSeenOrder docs, ?_⟩
  · rw [post_vector_eq_map_vocab, List.length_map]
  · intro i hi
    rw [post_vector_eq_map_vocab]
    have hlen : i < ((vocab docs).map (fun w =>
        (tfidfWordWeight docs w / ((nf (tokens post) threshold : ℚ) : ℝ)) *
          (if w ∈ tokens post then 1 else 0))).length := by
      rwa [List.length_map]
    rw [List.getD_eq_getElem _ _ hlen, List.getD_eq_getElem _ _ hi, List.getElem_map]
    by_cases hmem : (vocab docs)[i] ∈ tokens post
    · rw [if_pos hmem, if_pos hmem, mul_one]
    · rw [if_neg hmem, if_neg hmem, mul_zero]

/-- C4 witness: the coordinate formula instantiated on a concrete fitted
corpus, document and axis. -/
theorem post_vector_spec_witness :
    0 < (vocab ["a b", "c"]).length
    ∧ (post_vector ["a b", "c"] "a" 1).getD 0 0 =
        (if (vocab ["a b", "c"]).getD 0 "" ∈ tokens "a"
        then tfidfWordWeight ["a b", "c"] ((vocab ["a b", "c"]).getD 0 "")
          / ((nf (tokens "a") 1 : ℚ) : ℝ)
        else 0) :=
  ⟨by decide, (post_vector_spec ["a b", "c"] "a" 1).2.2 0 (by decide)⟩

/-- C5: for a corpus fitted from a non-empty document list and any vocabulary
token, the memoized weight equals `tf * log2(idf)`; it is nonnegative; and it
vanishes exactly when the token occurs in every document of the corpus. -/
theorem term_weight_spec (docs : List String) (w : String)
    (hne : docs ≠ []) (hw : w ∈ vocab docs) :
    (allTfidfs docs).lookup w = some (tf docs w * Real.logb 2 (idf docs w))
    ∧ 0 ≤ tfidfWordWeight docs w
    ∧ (tfidfWordWeight docs w = 0 ↔ ∀ d ∈ docs, w ∈ tokens d) := by
  have hfreq := wordFreq_pos docs w hw
  have htot := total_pos docs w hw
  have hnp := numPostsContaining_pos docs w hw
  have hnpc := numPostsContaining_le_postCount docs w
  have htf : 0 < tf docs w := by
    unfold tf
    exact div_pos (by exact_mod_cast hfreq) (by exact_mod_cast htot)
  have hnpR : (0:ℝ) < (numPostsContaining docs w : ℝ) := by exact_mod_cast hnp
  have hidf1 : (1:ℝ) ≤ idf docs w := by
    unfold idf
    rw [one_le_div hnpR]
    exact_mod_cast hnpc
  refine ⟨?_, ?_, ?_⟩
  · rw [lookup_allTfidfs docs w hw]
    rfl
  · exact mul_nonneg htf.le (Real.logb_nonneg one_lt_two hidf1)
  · unfold tfidfWordWeight
    constructor
    · intro h0
      rcases mul_eq_zero.mp h0 with h | h
      · exact absurd h htf.ne'
      · have hidf : idf docs w = 1 := by
          rcases Real.logb_eq_zero.mp h with h2 | h2 | h2 | h2 | h2 | h2
          · norm_num at h2
          · norm_num at h2
          · norm_num at h2
          · linarith
          · exact h2
          · linarith
        unfold idf at hidf
        rw [div_eq_one_iff_eq hnpR.ne'] at hidf
        have hcnt : postCount docs = numPostsContaining docs w := by exact_mod_cast hidf
        rw [numPostsContaining_eq_countP] at hcnt
        have hall := List.countP_eq_length.mp hcnt.symm
        intro d hd
        exact of_decide_eq_true (hall d hd)
    · intro hall
      have hcnt : numPostsContaining docs w = postCount docs := by
        rw [numPostsContaining_eq_countP]
        exact List.countP_eq_length.mpr (fun d hd => decide_eq_true (hall d hd))
      have hpcR : (0:ℝ) < (postCount docs : ℝ) := hcnt ▸ hnpR
      have hone : idf docs w = 1 := by
        unfold idf
        rw [hcnt, div_self hpcR.ne']
      rw [hone, Real.logb_one, mul_zero]

/-! ## post_weight and its failure modes -/

theorem lookupWeights_eq_ok (tfidfs : List (String × ℝ)) (f : String → ℝ)
    (ws : List String) (h : ∀ w ∈ ws, tfidfs.lookup w = some (f w)) :
    lookupWeights tfidfs ws = .ok (ws.map f) := by
  induction ws with
  | nil => rfl
  | cons w ws ih =>
    have hw := h w (List.mem_cons_self _ _)
    have hrest := ih (fun v hv => h v (List.mem_cons_of_mem _ hv))
    simp only [lookupWeights, hw, hrest, List.map_cons]

theorem lookupWeights_error_of (tfidfs : List (String × ℝ)) (ws : List String)
    (h : ∃ w ∈ ws, tfidfs.lookup w = none) :
    ∃ w, lookupWeights tfidfs ws = .error (.keyError w) := by
  induction ws with
  | nil => simp at h
  | cons v ws ih =>
    cases hv : tfidfs.lookup v with
    | none => exact ⟨v, by simp only [lookupWeights, hv]⟩
    | some x =>
      have htail : ∃ w ∈ ws, tfidfs.lookup w = none := by
        obtain ⟨w, hw, hnone⟩ := h
        rcases List.mem_cons.mp hw with h1 | h1
        · exact absurd (h1 ▸ hnone) (by simp [hv])
        · exact ⟨w, h1, hnone⟩
      obtain ⟨w, hw⟩ := ih htail
      exact ⟨w, by simp only [lookupWeights, hv, hw]⟩

theorem lookupWeights_error_sound (tfidfs : List (String × ℝ)) (ws : List String) :
    ∀ e : PyError, lookupWeights tfidfs ws = .error e →
      ∃ w ∈ ws, tfidfs.lookup w = none := by
  induction ws with
  | nil =>
    intro e h
    simp [lookupWeights] at h
  | cons v ws ih =>
    intro e h
    cases hv : tfidfs.lookup v with
    | none => exact ⟨v, List.mem_cons_self _ _, hv⟩
    | some x =>
      simp only [lookupWeights, hv] at h
      cases hr : lookupWeights tfidfs ws with
      | error e2 =>
        obtain ⟨w, hw, hnone⟩ := ih e2 hr
        exact ⟨w, List.mem_cons_of_mem _ hw, hnone⟩
      | ok xs => simp [hr] at h

theorem sum_map_indicator (l ts : List String) (g : String → ℝ) :
    (l.map (fun w => g w * (if w ∈ ts then 1 else 0))).sum =
      ((l.filter (fun w => decide (w ∈ ts))).map g).sum := by
  induction l with
  | nil => rfl
  | cons a l ih =>
    by_cases ha : a ∈ ts
    · simp only [List.map_cons, List.sum_cons, if_pos ha, mul_one,
        List.filter_cons, decide_eq_true ha, ih]
      simp
    · simp only [List.map_cons, List.sum_cons, if_neg ha, mul_zero,
        List.filter_cons, decide_eq_false ha, ih]
      simp

theorem sum_map_div (ts : List String) (f : String → ℝ) (b : ℝ) :
    (ts.map (fun w => f w / b)).sum = (ts.map f).sum / b := by
  induction ts with
  | nil => simp
  | cons a ts ih =>
    simp only [List.map_cons, List.sum_cons, ih]
    rw [add_div]

/-- C3 amended: the vector-sum path and the token-sum path agree for every
document whose tokens lie in the fitted vocabulary and are pairwise distinct;
in general `post_weight` counts a repeated token once per occurrence while the
vector sums it once (see the counterexample). -/
theorem post_weight_eq_vector_sum (docs : List String) (post : String) (threshold : ℚ)
    (hnodup : (tokens post).Nodup) (hsub : ∀ w ∈ tokens post, w ∈ vocab docs) :
    post_weight docs post threshold = .ok ((post_vector docs post threshold).sum) := by
  have hok : lookupWeights (allTfidfs docs) (tokens post) =
      .ok ((tokens post).map (fun w => tfidfWordWeight docs w)) :=
    lookupWeights_eq_ok _ _ _ (fun w hw => lookup_allTfidfs docs w (hsub w hw))
  unfold post_weight
  rw [hok]
  have hvec : (post_vector docs post threshold).sum =
      ((tokens post).map (fun w => tfidfWordWeight docs w)).sum /
        ((nf (tokens post) threshold : ℚ) : ℝ) := by
    rw [post_vector_eq_map_vocab]
    rw [show (fun w => (tfidfWordWeight docs w / ((nf (tokens post) threshold : ℚ) : ℝ)) *
        (if w ∈ tokens post then 1 else 0)) =
      (fun w => (fun v => tfidfWordWeight docs v / ((nf (tokens post) threshold : ℚ) : ℝ)) w *
        (if w ∈ tokens post then 1 else 0)) from rfl]
    rw [sum_map_indicator]
    have hperm : ((vocab docs).filter (fun w => decide (w ∈ tokens post))).Perm
        (tokens post) := by
      refine (List.perm_ext_iff_of_nodup ((vocab_nodup docs).filter _) hnodup).mpr ?_
      intro a
      rw [List.mem_filter]
      constructor
      · rintro ⟨_, ha⟩
        exact of_decide_eq_true ha
      · intro ha
        exact ⟨hsub a ha, decide_eq_true ha⟩
    rw [List.Perm.sum_eq (List.Perm.map _ hperm)]
    rw [sum_map_div]
  rw [hvec]

/-- C3 amended witness: a concrete corpus and document with distinct
in-vocabulary tokens where the theorem applies. -/
theorem post_weight_eq_vector_sum_witness :
    (tokens "a").Nodup ∧ (∀ w ∈ tokens "a", w ∈ vocab ["a a", "b"])
    ∧ post_weight ["a a", "b"] "a" 1 = .ok ((post_vector ["a a", "b"] "a" 1).sum) :=
  ⟨by decide, by decide,
    post_weight_eq_vector_sum ["a a", "b"] "a" 1 (by decide) (by decide)⟩

/-! ## Behaviour of the object before and after fit -/

/-- C7 amended: `fit` on an empty document list does not fail at all: it
completes, marks the model as fit, and leaves empty statistics (empty
vocabulary, zero token count, zero document count); no `EmptyCorpusError`
exists in the code. -/
theorem fit_empty_completes (s : HState) :
    fitOp s [] = .ok ⟨s.threshold, true, some []⟩
    ∧ vocab [] = [] ∧ corpusTotalWordCount [] = 0 ∧ postCount [] = 0 :=
  ⟨rfl, rfl, rfl, rfl⟩

/-- C7 counterexample: calling `fit` with zero documents returns normally
(leaving a fit model), it does not fail with `EmptyCorpusError` as claimed. -/
theorem fit_empty_not_error :
    fitOp (initHybridTfidf 5) [] = .ok ⟨5, true, some []⟩
    ∧ (⟨5, true, some []⟩ : HState).isfit = true :=
  ⟨rfl, rfl⟩

/-- C6 amended: on a model on which `fit` has not completed (no fitted
attributes), every query operation other than `fit` fails — but with Python's
`AttributeError` (the fitted attributes are simply missing; the class performs
no explicit check), not with a dedicated `NotFitError`, which does not exist
in the code.  `transform` fails on any non-empty batch (on an empty batch its
loop body never runs and it returns an empty list). -/
theorem unfit_queries_fail (s : HState) (hs : s.raw = none) :
    (∀ post threshold, postVectorOp s post threshold = .error .attributeError)
    ∧ (∀ post threshold, postWeightOp s post threshold = .error .attributeError)
    ∧ getFeatureNamesOp s = .error .attributeError
    ∧ (∀ w, termWeightOp s w = .error .attributeError)
    ∧ (∀ batch, batch ≠ [] → transformOp s batch = .error .attributeError) := by
  refine ⟨?_, ?_, ?_, ?_, ?_⟩
  · intro post threshold
    simp [postVectorOp, hs]
  · intro post threshold
    simp [postWeightOp, hs]
  · simp [getFeatureNamesOp, hs]
  · intro w
    simp [termWeightOp, hs]
  · intro batch hb
    cases batch with
    | nil => exact absurd rfl hb
    | cons b bs =>
      simp [transformOp, postVectorOp, hs, List.mapM, List.mapM.loop, Bind.bind, Except.bind]

/-- C6 amended witness: the freshly constructed (unfit) model refuses a
concrete query with `AttributeError`. -/
theorem unfit_queries_fail_witness :
    (initHybridTfidf 5).raw = none
    ∧ getFeatureNamesOp (initHybridTfidf 5) = .error .attributeError :=
  ⟨rfl, (unfit_queries_fail (initHybridTfidf 5) rfl).2.2.1⟩

/-- C6 counterexample: the claim says a query on an unfit model fails with
`NotFitError`; the code instead fails with `AttributeError` (and no
`NotFitError` exists anywhere in the sources). -/
theorem unfit_query_not_notFitError :
    getFeatureNamesOp (initHybridTfidf 5) = .error .attributeError
    ∧ (Except.error .attributeError : Except PyError (List String))
        ≠ .error .notFitError :=
  ⟨rfl, fun hc => absurd (Except.error.inj hc) (by decide)⟩

/-- C8 amended: on a fitted model, `post_weight` fails — with Python's
`KeyError` on the offending token, not a dedicated `UnknownTokenError` —
exactly when some token of the document lies outside the fitted vocabulary;
`post_vector` (vectorize) by contrast always succeeds. -/
theorem post_weight_key_error_iff (s : HState) (docs : List String) (post : String)
    (threshold : ℚ) (hfit : s.raw = some docs) :
    ((∃ w, postWeightOp s post threshold = .error (.keyError w))
      ↔ ∃ tok ∈ tokens post, tok ∉ vocab docs)
    ∧ ∃ v, postVectorOp s post threshold = .ok v := by
  constructor
  · constructor
    · rintro ⟨w, hw⟩
      simp only [postWeightOp, hfit] at hw
      unfold post_weight at hw
      cases hlw : lookupWeights (allTfidfs docs) (tokens post) with
      | error e =>
        obtain ⟨tok, htok, hnone⟩ := lookupWeights_error_sound _ _ _ hlw
        refine ⟨tok, htok, ?_⟩
        rw [lookup_eq_none_iff, keys_allTfidfs] at hnone
        exact hnone
      | ok xs => simp [hlw] at hw
    · intro h
      obtain ⟨tok, htok, hout⟩ := h
      have : ∃ w ∈ tokens post, (allTfidfs docs).lookup w = none :=
        ⟨tok, htok, lookup_allTfidfs_none docs tok hout⟩
      obtain ⟨w, hw⟩ := lookupWeights_error_of _ _ this
      refine ⟨w, ?_⟩
      simp only [postWeightOp, hfit]
      unfold post_weight
      rw [hw]
  · exact ⟨post_vector docs post threshold, by simp [postVectorOp, hfit]⟩

/-- C8 amended witness: a fitted model and a document containing an
out-of-vocabulary token, where the equivalence applies. -/
theorem post_weight_key_error_iff_witness :
    (⟨5, true, some ["a", "b"]⟩ : HState).raw = some ["a", "b"]
    ∧ (((∃ w, postWeightOp ⟨5, true, some ["a", "b"]⟩ "c" 5 = .error (.keyError w))
      ↔ ∃ tok ∈ tokens "c", tok ∉ vocab ["a", "b"])
    ∧ ∃ v, postVectorOp ⟨5, true, some ["a", "b"]⟩ "c" 5 = .ok v) :=
  ⟨rfl, post_weight_key_error_iff ⟨5, true, some ["a", "b"]⟩ ["a", "b"] "c" 5 rfl⟩

/-- C8 counterexample: on a concrete fitted model and unknown token the
failure is a `KeyError`, not the claimed `UnknownTokenError` (which does not
exist in the code). -/
theorem post_weight_error_is_keyError :
    postWeightOp ⟨5, true, some ["a", "b"]⟩ "c" 5 = .error (.keyError "c")
    ∧ PyError.keyError "c" ≠ PyError.unknownTokenError := by
  constructor
  · have hnone : (allTfidfs ["a", "b"]).lookup "c" = none := by
      refine lookup_allTfidfs_none _ _ ?_
      decide
    simp only [postWeightOp]
    unfold post_weight
    have : lookupWeights (allTfidfs ["a", "b"]) (tokens "c") = .error (.keyError "c") := by
      rw [show tokens "c" = ["c"] from by decide]
      simp only [lookupWeights, hnone]
    rw [this]
  · decide

/-! ## Concrete evaluations of the selector -/

/-- C1: the claim fails on the code: already for a single document (`n = 1`)
and `k = 1 ≥ n`, the first loop iteration evaluates
`sorted_keyed_vectors[1]` in a one-element list before the stop condition
`i >= veclength` is ever able to fire (at the end of an iteration it compares
the pre-increment `i`), so the call raises `IndexError` instead of
terminating normally by exhausting candidates. -/
theorem select_salient_posts_index_error :
    select_salient_posts [[(1:ℝ)]] [(1:ℝ)] 1 (2/5) = .error .indexError := by
  have hS : sortedKeyedVectors [[(1:ℝ)]] [(1:ℝ)] = [(0, [(1:ℝ)])] := by
    unfold sortedKeyedVectors
    simp [List.insertionSort, List.orderedInsert, List.enum, List.enumFrom,
      List.zip, List.zipWith]
  unfold select_salient_posts
  rw [hS]
  show selectLoop [((0:Nat), [(1:ℝ)])] (2/5) 1 1 1 [0] [0] = .error .indexError
  rw [selectLoop.eq_def]
  rfl

theorem selectLoop_no_ok (sorted : List (Nat × List ℝ)) (t : ℝ) (k veclength i : Nat)
    (j : Nat) (js uns out : List Nat) :
    selectLoop sorted t k veclength i (j :: js) uns ≠ .ok out := by
  intro h
  rw [selectLoop.eq_def] at h
  cases hz : sorted[i]? with
  | none => simp [hz] at h
  | some zi =>
    simp only [hz] at h
    cases hj : sorted[j]? with
    | none => simp [simAny, hj] at h
    | some zj => simp [simAny, hj] at h

/-- C2: the claim fails because the code never returns a sequence at all: on
a two-document input the first inner-loop iteration indexes both candidate
vectors successfully and then raises `NameError` — the comparison reads the
unbound name `sim_threshold` (`utils.py` line 55, `hybridtfidf.py` line 236;
the parameter is spelled `similarity_threshold`, and the `utils.py` copy
additionally calls `cosine_sim` with `dot`/`norm` unimported) — so no list
of indices, in original order or any other, is ever produced.  (The order
the loop accumulates before failing is the descending-weight rank order, a
second divergence from the claim.) -/
theorem select_salient_posts_name_error :
    select_salient_posts [[(1:ℝ), 0], [(0:ℝ), 1]] [(1:ℝ), 2] 2 (2/5)
      = .error .nameError := by
  have hS : sortedKeyedVectors [[(1:ℝ), 0], [(0:ℝ), 1]] [(1:ℝ), 2] =
      [(1, [(0:ℝ), 1]), (0, [(1:ℝ), 0])] := by
    unfold sortedKeyedVectors
    simp [List.insertionSort, List.orderedInsert, List.enum, List.enumFrom,
      List.zip, List.zipWith]
  unfold select_salient_posts
  rw [hS]
  show selectLoop [(1, [(0:ℝ), 1]), (0, [(1:ℝ), 0])] (2/5) 2 2 1 [0] [1]
    = .error .nameError
  rw [selectLoop.eq_def]
  rfl

/-- C9: the redundancy claim has no realizable subject, because
`select_salient_posts` can never return a selection: the seed access
`sorted_keyed_vectors[0]` or the per-iteration `[i]` access raises
`IndexError`, and otherwise the very first inner-loop comparison (the
selected set always contains rank position 0) raises `NameError` on the
unbound `sim_threshold` (in `utils.py` already inside `cosine_sim`, whose
`dot`/`norm` are unimported).  Proved: no call evaluates to `.ok out` for
any `out`, so the code cannot exhibit the claimed property of returned
selections. -/
theorem select_salient_posts_never_ok (post_vectors : List (List ℝ))
    (post_weights : List ℝ) (k : Nat) (t : ℝ) (out : List Nat) :
    select_salient_posts post_vectors post_weights k t ≠ .ok out := by
  intro h
  unfold select_salient_posts at h
  cases h0 : (sortedKeyedVectors post_vectors post_weights)[0]? with
  | none => simp [h0] at h
  | some z0 =>
    simp only [h0] at h
    exact selectLoop_no_ok _ _ _ _ _ _ _ _ _ h

/-- C9 witness: the never-returns theorem instantiated at a concrete
two-document input and output candidate. -/
theorem select_salient_posts_never_ok_witness :
    select_salient_posts [[(1:ℝ), 0], [(0:ℝ), 1]] [(2:ℝ), 1] 2 (2/5) ≠ .ok [0, 1] :=
  select_salient_posts_never_ok [[(1:ℝ), 0], [(0:ℝ), 1]] [(2:ℝ), 1] 2 (2/5) [0, 1]

/-! ## Concrete evaluations of the corpus model -/

theorem weight_a_concrete : tfidfWordWeight ["a a", "b"] "a" = 2/3 := by
  unfold tfidfWordWeight tf idf
  rw [show wordFreq ["a a", "b"] "a" = 2 from by decide,
    show corpusTotalWordCount ["a a", "b"] = 3 from by decide,
    show postCount ["a a", "b"] = 2 from by decide,
    show numPostsContaining ["a a", "b"] "a" = 1 from by decide]
  push_cast
  rw [show ((2:ℝ)/(1:ℝ)) = 2 from by norm_num, Real.logb_self_eq_one one_lt_two]
  norm_num

theorem weight_b_concrete : tfidfWordWeight ["a a", "b"] "b" = 1/3 := by
  unfold tfidfWordWeight tf idf
  rw [show wordFreq ["a a", "b"] "b" = 1 from by decide,
    show corpusTotalWordCount ["a a", "b"] = 3 from by decide,
    show postCount ["a a", "b"] = 2 from by decide,
    show numPostsContaining ["a a", "b"] "b" = 1 from by decide]
  push_cast
  rw [show ((2:ℝ)/(1:ℝ)) = 2 from by norm_num, Real.logb_self_eq_one one_lt_two]
  norm_num

/-- C5 witness: the term-weight theorem instantiated on a concrete non-empty
corpus and vocabulary token. -/
theorem term_weight_spec_witness :
    (["a a", "b"] ≠ ([] : List String)) ∧ "a" ∈ vocab ["a a", "b"]
    ∧ ((allTfidfs ["a a", "b"]).lookup "a"
        = some (tf ["a a", "b"] "a" * Real.logb 2 (idf ["a a", "b"] "a"))
      ∧ 0 ≤ tfidfWordWeight ["a a", "b"] "a"
      ∧ (tfidfWordWeight ["a a", "b"] "a" = 0 ↔ ∀ d ∈ ["a a", "b"], "a" ∈ tokens d)) :=
  ⟨by decide, by decide, term_weight_spec ["a a", "b"] "a" (by decide) (by decide)⟩

/-- C3 counterexample: on the corpus `["a a", "b"]` and the document `"a a"`
(token `a` repeated), the token-sum path gives `2/3` while the vector-sum
path gives `1/3`: the two derivations of document saliency disagree. -/
theorem post_weight_ne_vector_sum :
    post_weight ["a a", "b"] "a a" 1 = .ok (2/3)
    ∧ (post_vector ["a a", "b"] "a a" 1).sum = 1/3
    ∧ ((2:ℝ)/3) ≠ 1/3 := by
  have hvocab : vocab ["a a", "b"] = ["a", "b"] := by decide
  have htokaa : tokens "a a" = ["a", "a"] := by decide
  have hnf : ((nf ["a", "a"] 1 : ℚ) : ℝ) = 2 := by
    rw [show nf ["a", "a"] 1 = 2 from by decide]
    norm_num
  refine ⟨?_, ?_, by norm_num⟩
  · have hlw : lookupWeights (allTfidfs ["a a", "b"]) ["a", "a"]
        = .ok (["a", "a"].map (fun w => tfidfWordWeight ["a a", "b"] w)) := by
      refine lookupWeights_eq_ok _ _ _ ?_
      intro w hw
      have hwa : w = "a" := by
        rcases List.mem_cons.mp hw with rfl | hw
        · rfl
        · rcases List.mem_cons.mp hw with rfl | hw
          · rfl
          · simp at hw
      subst hwa
      exact lookup_allTfidfs _ _ (by decide)
    unfold post_weight
    rw [htokaa, hlw]
    dsimp only [List.map_cons, List.map_nil]
    rw [show (([tfidfWordWeight ["a a", "b"] "a", tfidfWordWeight ["a a", "b"] "a"]).sum)
      = tfidfWordWeight ["a a", "b"] "a" + (tfidfWordWeight ["a a", "b"] "a" + 0) from rfl]
    rw [weight_a_concrete, hnf]
    norm_num
  · rw [post_vector_eq_map_vocab, hvocab, htokaa]
    dsimp only [List.map_cons, List.map_nil, List.sum_cons, List.sum_nil]
    rw [weight_a_concrete, weight_b_concrete, hnf]
    rw [if_pos (show ("a" : String) ∈ ["a", "a"] from by decide),
      if_neg (show ¬ ("b" : String) ∈ ["a", "a"] from by decide)]
    norm_num

/-! ## The legacy variant -/

theorem legacy_post_vector_eq_map_vocab (docs : List String) (post : String)
    (threshold : ℚ) :
    legacy_post_vector docs post threshold =
      (vocab docs).map (fun w =>
        (tfidfWordWeight docs w / ((max threshold (post.length : ℚ) : ℚ) : ℝ)) *
          (if w ∈ tokens post then 1 else 0)) := by
  unfold legacy_post_vector allTfidfs
  rw [List.map_map]
  rfl

theorem weight_a10_concrete : tfidfWordWeight ["a b", "c"] "a" = 1/3 := by
  unfold tfidfWordWeight tf idf
  rw [show wordFreq ["a b", "c"] "a" = 1 from by decide,
    show corpusTotalWordCount ["a b", "c"] = 3 from by decide,
    show postCount ["a b", "c"] = 2 from by decide,
    show numPostsContaining ["a b", "c"] "a" = 1 from by decide]
  push_cast
  rw [show ((2:ℝ)/(1:ℝ)) = 2 from by norm_num, Real.logb_self_eq_one one_lt_two]
  norm_num

/-- C10 counterexample: on the corpus `["a b", "c"]`, the document `"a b"`
(three characters, two tokens) and threshold `1`, the legacy class divides by
`max(1, len("a b")) = 3` while the packaged class divides by
`max(1, len(["a","b"])) = 2`, so the two `post_vector` outputs differ
(`1/9` versus `1/6` on the first axis). -/
theorem legacy_post_vector_ne_packaged :
    legacy_post_vector ["a b", "c"] "a b" 1 ≠ post_vector ["a b", "c"] "a b" 1 := by
  have hvoc : vocab ["a b", "c"] = ["a", "b", "c"] := by decide
  have h1 : (legacy_post_vector ["a b", "c"] "a b" 1).getD 0 0 = 1/9 := by
    rw [legacy_post_vector_eq_map_vocab, hvoc]
    dsimp only [List.map_cons, List.getD_cons_zero]
    rw [weight_a10_concrete,
      show ((max (1:ℚ) (("a b".length : Nat) : ℚ) : ℚ) : ℝ) = 3 from by
        rw [show (max (1:ℚ) (("a b".length : Nat) : ℚ)) = 3 from by decide]; norm_num,
      if_pos (show ("a" : String) ∈ tokens "a b" from by decide)]
    norm_num
  have h2 : (post_vector ["a b", "c"] "a b" 1).getD 0 0 = 1/6 := by
    rw [post_vector_eq_map_vocab, hvoc]
    dsimp only [List.map_cons, List.getD_cons_zero]
    rw [weight_a10_concrete,
      show ((nf (tokens "a b") 1 : ℚ) : ℝ) = 2 from by
        rw [show nf (tokens "a b") 1 = 2 from by decide]; norm_num,
      if_pos (show ("a" : String) ∈ tokens "a b" from by decide)]
    norm_num
  intro h
  have := congrArg (fun l => l.getD 0 0) h
  simp only at this
  rw [h1, h2] at this
  norm_num at this

/-- C10 amended: the two historical `post_vector` variants agree whenever
the character-count-based and token-count-based normalization factors
coincide (for instance whenever the threshold dominates both); in general
they differ, because the legacy variant normalizes by `max(threshold,
character count of the raw string)`, not by token count (see the
counterexample). -/
theorem legacy_post_vector_eq_packaged_of_nf (docs : List String) (post : String)
    (threshold : ℚ)
    (h : max threshold ((post.length : Nat) : ℚ) = max threshold (((tokens post).length : Nat) : ℚ)) :
    legacy_post_vector docs post threshold = post_vector docs post threshold := by
  rw [legacy_post_vector_eq_map_vocab, post_vector_eq_map_vocab]
  unfold nf
  rw [h]

/-- C10 amended witness: with threshold `5` dominating both the character
count (3) and the token count (2) of `"a b"`, the two variants agree. -/
theorem legacy_post_vector_eq_packaged_witness :
    (max (5:ℚ) (("a b".length : Nat) : ℚ) = max 5 (((tokens "a b").length : Nat) : ℚ))
    ∧ legacy_post_vector ["a b", "c"] "a b" 5 = post_vector ["a b", "c"] "a b" 5 :=
  ⟨by decide, legacy_post_vector_eq_packaged_of_nf ["a b", "c"] "a b" 5 (by decide)⟩
